import Mathlib

/-!
Verification of the MemMem memory-lifecycle engine.

The development shallowly embeds the core of the repository:

* `forgetting_curve.py` — the Ebbinghaus-style retention score
  (`ForgettingCurve.calculate_retention_strength`) and the decay sweep
  (`ForgettingCurve.apply_forgetting_curve`);
* `vector_store.py` — the store operations `delete_memory`,
  `query_memories` and the access-bump helper `_update_access_info`;
* `scheduler.py` — the jobs registered by `MemoryScheduler.start_scheduler`.

Timestamps: the Python code parses ISO timestamps and reduces them to whole
day counts via `(datetime.now() - t).days`.  The embedding works directly
with those day counts (natural numbers), i.e. with well-formed timestamps
not in the future; model time is measured in whole days.

Floats are modelled as real numbers and `math.exp` as `Real.exp`.
-/

/-- The strength factor of the forgetting curve:
`strength_factor = 1 + (access_count * 0.5)` in
`ForgettingCurve.calculate_retention_strength`. -/
noncomputable def strength_factor (access_count : Nat) : ℝ :=
  1 + (access_count : ℝ) * 0.5

/-- The retention term of `ForgettingCurve.calculate_retention_strength`:
`1.0` when `days_since_access == 0`, otherwise
`math.exp (-days_since_access / strength_factor)`. -/
noncomputable def retention (days_since_access access_count : Nat) : ℝ :=
  if days_since_access = 0 then 1.0
  else Real.exp (-(days_since_access : ℝ) / strength_factor access_count)

/-- `ForgettingCurve.calculate_retention_strength` on well-formed inputs
(day counts already extracted from the timestamps).  The source computes
`final_importance = base_importance * retention`, multiplies by
`age_decay = max(0.1, 1 - days_since_creation * 0.01)` and returns
`max(0.0, min(2.0, final_importance))`. -/
noncomputable def calculate_retention_strength
    (days_since_creation days_since_access access_count : Nat)
    (base_importance : ℝ) : ℝ :=
  max 0.0 (min 2.0
    ((base_importance * retention days_since_access access_count) *
      max 0.1 (1 - (days_since_creation : ℝ) * 0.01)))

/-- `clamp(x, lo, hi)` as used by the spec formula. -/
noncomputable def clamp (x lo hi : ℝ) : ℝ := max lo (min hi x)

/-- The reference `score` formula exactly as the spec words it:
`strengthFactor = 1 + 0.5 * accessCount`,
`retention = 1.0` if `daysSinceAccess == 0` else
`exp(-daysSinceAccess / strengthFactor)`,
result `clamp(baseImportance * retention * max(0.1, 1 - 0.01 * daysSinceCreation), 0.0, 2.0)`. -/
noncomputable def score_spec
    (daysSinceCreation daysSinceAccess accessCount : Nat)
    (baseImportance : ℝ) : ℝ :=
  clamp
    ((baseImportance *
        (if daysSinceAccess = 0 then 1.0
         else Real.exp (-(daysSinceAccess : ℝ) / (1 + 0.5 * (accessCount : ℝ))))) *
      max 0.1 (1 - 0.01 * (daysSinceCreation : ℝ)))
    0.0 2.0

/-- C1: for every well-formed pair of timestamps (reduced to their whole-day
ages), every access count and every base importance, the score computed by
`ForgettingCurve.calculate_retention_strength` equals the reference formula
of the spec. -/
theorem calculate_retention_strength_matches_spec
    (dc da ac : Nat) (b : ℝ) :
    calculate_retention_strength dc da ac b = score_spec dc da ac b := by
  unfold calculate_retention_strength score_spec clamp retention strength_factor
  rw [mul_comm (ac : ℝ) 0.5, mul_comm (dc : ℝ) 0.01]

/-- The strength factor is positive. -/
lemma strength_factor_pos (ac : Nat) : 0 < strength_factor ac := by
  unfold strength_factor
  positivity

/-- The retention term is nonnegative. -/
lemma retention_nonneg (da ac : Nat) : 0 ≤ retention da ac := by
  unfold retention
  split
  · norm_num
  · exact le_of_lt (Real.exp_pos _)

/-- The retention term is at most one. -/
lemma retention_le_one (da ac : Nat) : retention da ac ≤ 1 := by
  unfold retention
  split
  · norm_num
  · rw [← Real.exp_zero]
    apply Real.exp_le_exp.mpr
    rw [neg_div, neg_nonpos]
    exact div_nonneg (Nat.cast_nonneg _) (le_of_lt (strength_factor_pos ac))

/-- The retention term is antitone in the number of days since last access. -/
lemma retention_antitone {d1 d2 : Nat} (ac : Nat) (h : d1 ≤ d2) :
    retention d2 ac ≤ retention d1 ac := by
  rcases Nat.eq_zero_or_pos d1 with h1 | h1
  · subst h1
    calc retention d2 ac ≤ 1 := retention_le_one d2 ac
      _ = retention 0 ac := by unfold retention; norm_num
  · have h2 : d2 ≠ 0 := Nat.pos_iff_ne_zero.mp (lt_of_lt_of_le h1 h)
    have h1' : d1 ≠ 0 := Nat.pos_iff_ne_zero.mp h1
    unfold retention
    rw [if_neg h1', if_neg h2]
    apply Real.exp_le_exp.mpr
    rw [neg_div, neg_div, neg_le_neg_iff]
    exact (div_le_div_iff_of_pos_right (strength_factor_pos ac)).mpr (by exact_mod_cast h)

/-- The computed score is clamped to the interval from zero to two. -/
lemma calculate_retention_strength_bounds (dc da ac : Nat) (b : ℝ) :
    0 ≤ calculate_retention_strength dc da ac b ∧
      calculate_retention_strength dc da ac b ≤ 2 := by
  unfold calculate_retention_strength
  constructor
  · exact le_max_of_le_left (by norm_num)
  · exact max_le (by norm_num) (le_trans (min_le_left _ _) (by norm_num))

/-- C6: holding the creation age, access count and base importance fixed,
the score of `ForgettingCurve.calculate_retention_strength` is monotonically
non-increasing in the number of days since last access (for a well-formed,
hence nonnegative, base importance). -/
theorem calculate_retention_strength_antitone_days_since_access
    (dc ac : Nat) (b : ℝ) (d1 d2 : Nat) (hd : d1 ≤ d2) (hb : 0 ≤ b) :
    calculate_retention_strength dc d2 ac b ≤
      calculate_retention_strength dc d1 ac b := by
  unfold calculate_retention_strength
  have hret : b * retention d2 ac ≤ b * retention d1 ac :=
    mul_le_mul_of_nonneg_left (retention_antitone ac hd) hb
  have hdecay : (0 : ℝ) ≤ max 0.1 (1 - (dc : ℝ) * 0.01) :=
    le_trans (by norm_num) (le_max_left _ _)
  exact max_le_max le_rfl
    (min_le_min le_rfl (mul_le_mul_of_nonneg_right hret hdecay))

/-- Witness for C6 at concrete inputs. -/
theorem calculate_retention_strength_antitone_days_since_access_w :
    calculate_retention_strength 3 7 2 1 ≤ calculate_retention_strength 3 1 2 1 :=
  calculate_retention_strength_antitone_days_since_access 3 2 1 1 7
    (by norm_num) (by norm_num)

/-- A stored memory record: the per-memory metadata kept by the vector
store (`timestamp` is the creation time, in whole days of model time). -/
structure MemoryRecord where
  memory_id : String
  timestamp : Nat
  last_accessed : Nat
  access_count : Nat
  importance : ℝ

/-- The `new_importance` computed for a record inside
`ForgettingCurve.apply_forgetting_curve`: the retention score of the record
using its own stored importance as base, with day counts taken relative to
the sweep time `now`. -/
noncomputable def new_importance (now : Nat) (r : MemoryRecord) : ℝ :=
  calculate_retention_strength (now - r.timestamp) (now - r.last_accessed)
    r.access_count r.importance

/-- The loop of `ForgettingCurve.apply_forgetting_curve`: for each record
compute `new_importance`; if it is strictly below the threshold delete the
record (count it as forgotten), otherwise persist the new importance (count
it as updated).  Returns the surviving store together with the pair
`(updated_count, forgotten_count)`. -/
noncomputable def apply_forgetting_curve (decay_threshold : ℝ) (now : Nat) :
    List MemoryRecord → List MemoryRecord × Nat × Nat
  | [] => ([], 0, 0)
  | r :: rest =>
    if new_importance now r < decay_threshold then
      ((apply_forgetting_curve decay_threshold now rest).1,
       (apply_forgetting_curve decay_threshold now rest).2.1,
       (apply_forgetting_curve decay_threshold now rest).2.2 + 1)
    else
      ({ r with importance := new_importance now r } ::
         (apply_forgetting_curve decay_threshold now rest).1,
       (apply_forgetting_curve decay_threshold now rest).2.1 + 1,
       (apply_forgetting_curve decay_threshold now rest).2.2)

/-- Characterization of the records surviving a decay sweep: exactly the
records whose new score is not strictly below the threshold, each persisted
with its new importance. -/
lemma mem_apply_forgetting_curve (thr : ℝ) (now : Nat)
    (store : List MemoryRecord) (s : MemoryRecord) :
    s ∈ (apply_forgetting_curve thr now store).1 ↔
      ∃ r, r ∈ store ∧ ¬ new_importance now r < thr ∧
        s = { r with importance := new_importance now r } := by
  induction store with
  | nil => simp [apply_forgetting_curve]
  | cons r rest ih =>
    simp only [apply_forgetting_curve]
    split_ifs with h
    · rw [ih]
      constructor
      · rintro ⟨r', h1, h2, h3⟩
        exact ⟨r', List.mem_cons_of_mem _ h1, h2, h3⟩
      · rintro ⟨r', h1, h2, h3⟩
        rcases List.mem_cons.mp h1 with rfl | h1
        · exact absurd h h2
        · exact ⟨r', h1, h2, h3⟩
    · rw [List.mem_cons, ih]
      constructor
      · rintro (rfl | ⟨r', h1, h2, h3⟩)
        · exact ⟨r, List.mem_cons_self _ _, h, rfl⟩
        · exact ⟨r', List.mem_cons_of_mem _ h1, h2, h3⟩
      · rintro ⟨r', h1, h2, h3⟩
        rcases List.mem_cons.mp h1 with rfl | h1
        · exact Or.inl h3
        · exact Or.inr ⟨r', h1, h2, h3⟩

/-- C3: in a decay sweep, a record is kept (with its importance updated to
the newly computed score) if and only if its score is not strictly below the
threshold — so a record whose score equals the threshold is kept, and a
record is deleted if and only if its score is strictly below the
threshold. -/
theorem apply_forgetting_curve_strict_threshold (thr : ℝ) (now : Nat)
    (store : List MemoryRecord) (s : MemoryRecord) :
    s ∈ (apply_forgetting_curve thr now store).1 ↔
      ∃ r, r ∈ store ∧ ¬ new_importance now r < thr ∧
        s = { r with importance := new_importance now r } :=
  mem_apply_forgetting_curve thr now store s

/-- C4: every record that survives a decay sweep has its persisted
importance inside the closed interval from zero to two (for any initial
store whose importances already lie in that interval). -/
theorem apply_forgetting_curve_importance_bounds (thr : ℝ) (now : Nat)
    (store : List MemoryRecord)
    (h : ∀ r ∈ store, 0 ≤ r.importance ∧ r.importance ≤ 2)
    (s : MemoryRecord) (hs : s ∈ (apply_forgetting_curve thr now store).1) :
    0 ≤ s.importance ∧ s.importance ≤ 2 := by
  rcases (mem_apply_forgetting_curve thr now store s).mp hs with ⟨r, hr, hlt, rfl⟩
  exact calculate_retention_strength_bounds _ _ _ _

/-- A concrete record used by the witnesses: importance `1`, created and
last accessed at model time `0`, never accessed. -/
noncomputable def mem1 : MemoryRecord :=
  { memory_id := "a", timestamp := 0, last_accessed := 0,
    access_count := 0, importance := 1 }

/-- The sweep score of `mem1` at sweep time `0` is `1`. -/
lemma new_importance_mem1 : new_importance 0 mem1 = 1 := by
  unfold new_importance mem1 calculate_retention_strength retention
  norm_num

/-- Witness for C4 at a concrete one-record store and threshold `0.1`. -/
theorem apply_forgetting_curve_importance_bounds_w :
    0 ≤ (MemoryRecord.mk "a" 0 0 0 (new_importance 0 mem1)).importance ∧
      (MemoryRecord.mk "a" 0 0 0 (new_importance 0 mem1)).importance ≤ 2 :=
  apply_forgetting_curve_importance_bounds 0.1 0 [mem1]
    (by
      intro r hr
      rw [List.mem_singleton] at hr
      subst hr
      unfold mem1
      norm_num)
    (MemoryRecord.mk "a" 0 0 0 (new_importance 0 mem1))
    (by
      have h1 : ¬ new_importance 0 mem1 < 0.1 := by
        rw [new_importance_mem1]; norm_num
      simp only [apply_forgetting_curve, if_neg h1]
      simp [mem1])

/-- The result record of `ForgettingCurve.apply_forgetting_curve`: the
counters of the returned dictionary, plus the error message present only on
the exception path. -/
structure SweepResult where
  updated : Nat
  forgotten : Nat
  total_processed : Nat
  error : Option String

/-- `ForgettingCurve.apply_forgetting_curve` as a whole.  The body first
awaits `vector_store.get_all_memories()` — the one operation inside the
`try` block that can raise, since `delete_memory` and
`update_memory_importance` both catch their own exceptions and return
booleans — then runs the loop.  Any exception is caught and turned into a
zero-progress result carrying the error message; on success the counters
are returned with `total_processed = updated_count + forgotten_count`. -/
noncomputable def apply_forgetting_curve_run
    (fetch : Except String (List MemoryRecord)) (thr : ℝ) (now : Nat) :
    SweepResult :=
  match fetch with
  | .error e => ⟨0, 0, 0, some e⟩
  | .ok store =>
    ⟨(apply_forgetting_curve thr now store).2.1,
     (apply_forgetting_curve thr now store).2.2,
     (apply_forgetting_curve thr now store).2.1 +
       (apply_forgetting_curve thr now store).2.2,
     none⟩

/-- C7: a failing sweep returns a result whose three counters are all zero
(the exception is caught, never propagated — the function is total); a sweep
that completes returns counters with
`total_processed = updated + forgotten`. -/
theorem apply_forgetting_curve_run_error_counts (e : String) (thr : ℝ)
    (now : Nat) (store : List MemoryRecord) :
    ((apply_forgetting_curve_run (Except.error e) thr now).updated = 0 ∧
      (apply_forgetting_curve_run (Except.error e) thr now).forgotten = 0 ∧
      (apply_forgetting_curve_run (Except.error e) thr now).total_processed = 0) ∧
    (apply_forgetting_curve_run (Except.ok store) thr now).total_processed =
      (apply_forgetting_curve_run (Except.ok store) thr now).updated +
        (apply_forgetting_curve_run (Except.ok store) thr now).forgotten :=
  ⟨⟨rfl, rfl, rfl⟩, rfl⟩

/-- The backend `collection.delete(ids=[memory_id])`.  The external chroma
collection silently ignores ids that are not present (it only logs a
warning for a nonexisting embedding id), so the operation is total: it
removes the matching records, if any. -/
def collection_delete (col : List MemoryRecord) (id : String) :
    List MemoryRecord :=
  col.filter (fun m => m.memory_id ≠ id)

/-- `VectorStore.delete_memory`: calls `collection.delete` and returns
`True`; it returns `False` only when the backend raises, which the delete
of a missing id does not.  `MemoryManager.forget_memory` passes this
boolean through unchanged. -/
def delete_memory (col : List MemoryRecord) (id : String) :
    List MemoryRecord × Bool :=
  (collection_delete col id, true)

/-- C2 evaluation: deleting an id that is not in the store succeeds with
`True` (and leaves the store unchanged) — the code cannot return `False`
for a missing id, contrary to the claim. -/
theorem delete_memory_nonexistent_returns_true
    (col : List MemoryRecord) (id : String)
    (h : id ∉ col.map MemoryRecord.memory_id) :
    delete_memory col id = (col, true) := by
  unfold delete_memory collection_delete
  rw [Prod.mk.injEq]
  refine ⟨?_, rfl⟩
  apply List.filter_eq_self.mpr
  intro m hm
  simp only [decide_eq_true_eq]
  intro heq
  exact h (heq ▸ List.mem_map_of_mem MemoryRecord.memory_id hm)

/-- Witness for the C2 evaluation at a concrete store and missing id. -/
theorem delete_memory_nonexistent_returns_true_w :
    delete_memory [mem1] "missing" = ([mem1], true) :=
  delete_memory_nonexistent_returns_true [mem1] "missing" (by simp [mem1])

/-- The metadata rewrite of `VectorStore._update_access_info`: set
`last_accessed = now`, increment `access_count`, and boost
`importance = min(importance + min(0.1 * access_count, 0.5), 2.0)` with the
already-incremented access count. -/
noncomputable def update_access_info (now : Nat) (m : MemoryRecord) :
    MemoryRecord :=
  { m with
    last_accessed := now,
    access_count := m.access_count + 1,
    importance :=
      min (m.importance + min (0.1 * ((m.access_count : ℝ) + 1)) 0.5) 2.0 }

/-- The backend `collection.update(ids=[id], metadatas=[meta])`: replace
the metadata of every record whose id matches. -/
def collection_update (col : List MemoryRecord) (m : MemoryRecord) :
    List MemoryRecord :=
  col.map (fun x => if x.memory_id = m.memory_id then m else x)

/-- `VectorStore._update_access_info` as a store transformer: computes the
bumped metadata and writes it back with `collection.update`; the write is
wrapped in a `try` that swallows any backend exception, leaving the store
untouched for that record.  `failing` marks the ids whose metadata write
raises in the backend. -/
noncomputable def update_access_info_col (failing : String → Bool)
    (now : Nat) (col : List MemoryRecord) (m : MemoryRecord) :
    List MemoryRecord :=
  if failing m.memory_id then col
  else collection_update col (update_access_info now m)

/-- `VectorStore.query_memories`.  The external `collection.query` is the
spec's opaque nearest-neighbor lookup: `ranking` is the index's
nearest-first ordering of stored ids, the query returns the first `top_k`
of them together with their metadata snapshot taken at call time, and the
loop then bumps the access info of each returned record.  Returns the pair
(returned records, store after the access bumps). -/
noncomputable def query_memories (failing : String → Bool) (now : Nat)
    (col : List MemoryRecord) (ranking : List String) (top_k : Nat) :
    List MemoryRecord × List MemoryRecord :=
  ((ranking.take top_k).filterMap
      (fun id => col.find? (fun m => m.memory_id == id)),
   ((ranking.take top_k).filterMap
      (fun id => col.find? (fun m => m.memory_id == id))).foldl
     (update_access_info_col failing now) col)

/-- Pointwise form of a single access-bump write: the effect of
`update_access_info_col failing now · m` on one stored record. -/
noncomputable def update_one (failing : String → Bool) (now : Nat)
    (m x : MemoryRecord) : MemoryRecord :=
  if x.memory_id = m.memory_id ∧ failing m.memory_id = false
  then update_access_info now m else x

/-- A single access-bump write is the pointwise map of `update_one`. -/
lemma update_access_info_col_eq_map (failing : String → Bool) (now : Nat)
    (col : List MemoryRecord) (m : MemoryRecord) :
    update_access_info_col failing now col m =
      col.map (update_one failing now m) := by
  unfold update_access_info_col update_one collection_update
  cases hf : failing m.memory_id
  · simp only [hf, Bool.false_eq_true, if_false, and_true]
    apply List.map_congr_left
    intro x _
    simp [update_access_info]
  · simp [hf]

/-- Folding per-record maps over a list of writes is the map of the folded
per-record updates. -/
lemma foldl_map_eq_map_foldl (g : MemoryRecord → MemoryRecord → MemoryRecord) :
    ∀ (ms col : List MemoryRecord),
      ms.foldl (fun c m => c.map (g m)) col =
        col.map (fun x => ms.foldl (fun y m => g m y) x) := by
  intro ms
  induction ms with
  | nil => intro col; simp
  | cons m ms ih =>
    intro col
    simp only [List.foldl_cons]
    rw [ih (col.map (g m)), List.map_map]
    rfl

/-- `update_one` never changes the id of the record it is applied to. -/
lemma update_one_id (failing : String → Bool) (now : Nat)
    (m x : MemoryRecord) :
    (update_one failing now m x).memory_id = x.memory_id := by
  unfold update_one
  split_ifs with h
  · rw [update_access_info, h.1]
  · rfl

/-- A record whose id is hit by none of the writes is left unchanged by the
folded updates. -/
lemma foldl_update_one_not_mem (failing : String → Bool) (now : Nat) :
    ∀ (s : List MemoryRecord) (y : MemoryRecord),
      y.memory_id ∉ s.map MemoryRecord.memory_id →
      s.foldl (fun y m => update_one failing now m y) y = y := by
  intro s
  induction s with
  | nil => intro y _; rfl
  | cons m s ih =>
    intro y hy
    rw [List.map_cons, List.mem_cons] at hy
    push_neg at hy
    simp only [List.foldl_cons]
    have h1 : update_one failing now m y = y := by
      unfold update_one
      rw [if_neg]
      rintro ⟨h2, _⟩
      exact hy.1 h2
    rw [h1]
    exact ih y hy.2

/-- Records with the same id in a store with pairwise-distinct ids are
equal. -/
lemma eq_of_mem_of_memory_id_eq {col : List MemoryRecord}
    (hcol : (col.map MemoryRecord.memory_id).Nodup)
    {m x : MemoryRecord} (hm : m ∈ col) (hx : x ∈ col)
    (hid : m.memory_id = x.memory_id) : m = x :=
  List.inj_on_of_nodup_map hcol hm hx hid

/-- Effect of the folded access-bump writes on one stored record: a record
whose id is among the written ids is bumped once (unless its write fails),
every other record is untouched. -/
lemma foldl_update_one_char (failing : String → Bool) (now : Nat)
    (col : List MemoryRecord)
    (hcol : (col.map MemoryRecord.memory_id).Nodup) :
    ∀ (s : List MemoryRecord),
      (s.map MemoryRecord.memory_id).Nodup →
      (∀ m ∈ s, m ∈ col) →
      ∀ x ∈ col,
        s.foldl (fun y m => update_one failing now m y) x =
          if x.memory_id ∈ s.map MemoryRecord.memory_id ∧
              failing x.memory_id = false
          then update_access_info now x else x := by
  intro s
  induction s with
  | nil =>
    intro _ _ x _
    simp
  | cons m s ih =>
    intro hnodup hsub x hx
    rw [List.map_cons, List.nodup_cons] at hnodup
    simp only [List.foldl_cons, List.map_cons]
    by_cases hid : x.memory_id = m.memory_id
    · have hmx : m = x :=
        eq_of_mem_of_memory_id_eq hcol (hsub m (List.mem_cons_self m s)) hx hid.symm
    
      cases hf : failing m.memory_id
      · have h1 : update_one failing now m x = update_access_info now x := by
          unfold update_one
          rw [if_pos ⟨hid, hf⟩, hmx]
        rw [h1]
        have hidpres : (update_access_info now x).memory_id = x.memory_id := rfl
        have h2 : (update_access_info now x).memory_id ∉
            s.map MemoryRecord.memory_id := by
          rw [hidpres, hid]
          exact hnodup.1
        rw [foldl_update_one_not_mem failing now s _ h2]
        rw [if_pos ⟨List.mem_cons.mpr (Or.inl hid), by rw [hid]; exact hf⟩]
      · have h1 : update_one failing now m x = x := by
          unfold update_one
          rw [if_neg]
          rintro ⟨_, h2⟩
          rw [hf] at h2
          exact Bool.noConfusion h2
        rw [h1]
        have h2 : x.memory_id ∉ s.map MemoryRecord.memory_id := by
          rw [hid]; exact hnodup.1
        rw [foldl_update_one_not_mem failing now s x h2]
        rw [if_neg]
        rintro ⟨_, h3⟩
        rw [hid, hf] at h3
        exact Bool.noConfusion h3
    · have h1 : update_one failing now m x = x := by
        unfold update_one
        rw [if_neg]
        rintro ⟨h2, _⟩
        exact hid h2
      rw [h1]
      rw [ih hnodup.2 (fun m' hm' => hsub m' (List.mem_cons_of_mem _ hm')) x hx]
      by_cases hmem : x.memory_id ∈ s.map MemoryRecord.memory_id ∧
          failing x.memory_id = false
      · rw [if_pos hmem, if_pos ⟨List.mem_cons.mpr (Or.inr hmem.1), hmem.2⟩]
      · rw [if_neg hmem, if_neg]
        rintro ⟨h3, h4⟩
        rcases List.mem_cons.mp h3 with h5 | h5
        · exact hid h5
        · exact hmem ⟨h5, h4⟩

/-- The ids of the metadata snapshot returned by the index form a sublist
of the queried ids. -/
lemma snapshot_ids_sublist (col : List MemoryRecord) :
    ∀ (hits : List String),
      List.Sublist
        ((hits.filterMap
            (fun id => col.find? (fun m => m.memory_id == id))).map
          MemoryRecord.memory_id) hits := by
  intro hits
  induction hits with
  | nil => simp
  | cons id hits ih =>
    cases hfind : col.find? (fun m => m.memory_id == id) with
    | none =>
      simp only [List.filterMap_cons, hfind]
      exact ih.cons id
    | some m =>
      simp only [List.filterMap_cons, hfind, List.map_cons]
      have hp := List.find?_some hfind
      have hid : m.memory_id = id := by simpa using hp
      rw [hid]
      exact ih.cons₂ id

/-- Every record of the snapshot is a record of the store. -/
lemma snapshot_mem_col (col : List MemoryRecord) (hits : List String)
    (m : MemoryRecord)
    (hm : m ∈ hits.filterMap
        (fun id => col.find? (fun m => m.memory_id == id))) :
    m ∈ col := by
  rcases List.mem_filterMap.mp hm with ⟨id, _, hfind⟩
  exact List.mem_of_find?_eq_some hfind

/-- Folding the access-bump writes of a snapshot with pairwise-distinct
ids over a store with pairwise-distinct ids bumps exactly the records whose
id is in the snapshot and whose write does not fail. -/
lemma foldl_update_access_info_col_char (failing : String → Bool)
    (now : Nat) (col : List MemoryRecord)
    (hcol : (col.map MemoryRecord.memory_id).Nodup)
    (s : List MemoryRecord)
    (hs1 : (s.map MemoryRecord.memory_id).Nodup)
    (hs2 : ∀ m ∈ s, m ∈ col) :
    s.foldl (update_access_info_col failing now) col =
      col.map (fun x =>
        if x.memory_id ∈ s.map MemoryRecord.memory_id ∧
            failing x.memory_id = false
        then update_access_info now x else x) := by
  have hfun : update_access_info_col failing now =
      fun c m => c.map (update_one failing now m) := by
    funext c m
    exact update_access_info_col_eq_map failing now c m
  rw [hfun, foldl_map_eq_map_foldl]
  exact List.map_congr_left
    (fun x hx => foldl_update_one_char failing now col hcol s hs1 hs2 x hx)

/-- C5: as a side effect of a retrieval, every record returned in the
result list is rewritten by `update_access_info` — its access count is
incremented by one, its last-access time becomes `now`, and its importance
becomes `min(importance + min(0.1 * access_count, 0.5), 2.0)` with the
incremented count — and no other record of the store is modified. -/
theorem query_memories_access_bump (now : Nat) (col : List MemoryRecord)
    (ranking : List String) (top_k : Nat)
    (hcol : (col.map MemoryRecord.memory_id).Nodup)
    (hrank : ranking.Nodup) :
    (query_memories (fun _ => false) now col ranking top_k).2 =
      col.map (fun x =>
        if x.memory_id ∈
            ((query_memories (fun _ => false) now col ranking top_k).1).map
              MemoryRecord.memory_id
        then update_access_info now x else x) := by
  have hs1 : (((ranking.take top_k).filterMap
      (fun id => col.find? (fun m => m.memory_id == id))).map
        MemoryRecord.memory_id).Nodup :=
    List.Nodup.sublist (snapshot_ids_sublist col (ranking.take top_k))
      (List.Nodup.sublist (List.take_sublist top_k ranking) hrank)
  have hs2 : ∀ m ∈ (ranking.take top_k).filterMap
      (fun id => col.find? (fun m => m.memory_id == id)), m ∈ col :=
    fun m hm => snapshot_mem_col col (ranking.take top_k) m hm
  have h := foldl_update_access_info_col_char (fun _ => false) now col hcol
    _ hs1 hs2
  refine Eq.trans h ?_
  apply List.map_congr_left
  intro x _
  exact if_congr (by simp [query_memories]) rfl rfl

/-- Witness for C5 at a concrete store, ranking and query time. -/
theorem query_memories_access_bump_w :
    (query_memories (fun _ => false) 5 [mem1] ["a"] 3).2 =
      [mem1].map (fun x =>
        if x.memory_id ∈
            ((query_memories (fun _ => false) 5 [mem1] ["a"] 3).1).map
              MemoryRecord.memory_id
        then update_access_info 5 x else x) :=
  query_memories_access_bump 5 [mem1] ["a"] 3 (by simp) (by simp)

/-- C10: when the access-bump write for some returned record fails in the
backend, the retrieval still returns the same result list as a failure-free
retrieval (the exception is swallowed inside the update helper), and the
record whose write failed is still stored unchanged afterwards. -/
theorem query_memories_update_failure_swallowed (failing : String → Bool)
    (now : Nat) (col : List MemoryRecord) (ranking : List String)
    (top_k : Nat) (x : MemoryRecord)
    (hcol : (col.map MemoryRecord.memory_id).Nodup)
    (hrank : ranking.Nodup)
    (hx : x ∈ col) (hf : failing x.memory_id = true) :
    (query_memories failing now col ranking top_k).1 =
      (query_memories (fun _ => false) now col ranking top_k).1 ∧
    x ∈ (query_memories failing now col ranking top_k).2 := by
  refine ⟨rfl, ?_⟩
  have hs1 : (((ranking.take top_k).filterMap
      (fun id => col.find? (fun m => m.memory_id == id))).map
        MemoryRecord.memory_id).Nodup :=
    List.Nodup.sublist (snapshot_ids_sublist col (ranking.take top_k))
      (List.Nodup.sublist (List.take_sublist top_k ranking) hrank)
  have hs2 : ∀ m ∈ (ranking.take top_k).filterMap
      (fun id => col.find? (fun m => m.memory_id == id)), m ∈ col :=
    fun m hm => snapshot_mem_col col (ranking.take top_k) m hm
  have h : (query_memories failing now col ranking top_k).2 =
      col.map (fun y =>
        if y.memory_id ∈ (((ranking.take top_k).filterMap
            (fun id => col.find? (fun m => m.memory_id == id))).map
              MemoryRecord.memory_id) ∧ failing y.memory_id = false
        then update_access_info now y else y) :=
    foldl_update_access_info_col_char failing now col hcol _ hs1 hs2
  rw [h]
  refine List.mem_map.mpr ⟨x, hx, ?_⟩
  rw [if_neg]
  rintro ⟨_, h4⟩
  rw [hf] at h4
  exact Bool.noConfusion h4

/-- Witness for C10: the single record's write fails, the result list is
unchanged and the record survives untouched. -/
theorem query_memories_update_failure_swallowed_w :
    (query_memories (fun id => id == "a") 5 [mem1] ["a"] 3).1 =
      (query_memories (fun _ => false) 5 [mem1] ["a"] 3).1 ∧
    mem1 ∈ (query_memories (fun id => id == "a") 5 [mem1] ["a"] 3).2 :=
  query_memories_update_failure_swallowed (fun id => id == "a") 5 [mem1]
    ["a"] 3 mem1 (by simp) (by simp) (by simp) (by simp [mem1])

/-- C8: a retrieval with `top_k = 0` returns the empty list and leaves the
store unchanged, and a retrieval on an empty store returns the empty list,
for every ranking; the operation is total, so no error is raised. -/
theorem query_memories_topk_zero_or_empty (failing : String → Bool)
    (now : Nat) (col : List MemoryRecord) (ranking : List String)
    (top_k : Nat) :
    ((query_memories failing now col ranking 0).1 = [] ∧
      (query_memories failing now col ranking 0).2 = col) ∧
    ((query_memories failing now [] ranking top_k).1 = [] ∧
      (query_memories failing now [] ranking top_k).2 = []) := by
  refine ⟨⟨rfl, rfl⟩, ?_, ?_⟩
  · exact List.filterMap_eq_nil_iff.mpr (fun a _ => rfl)
  · have hsnap : (ranking.take top_k).filterMap
        (fun id => ([] : List MemoryRecord).find?
          (fun m => m.memory_id == id)) = [] :=
      List.filterMap_eq_nil_iff.mpr (fun a _ => rfl)
    show ((ranking.take top_k).filterMap
        (fun id => ([] : List MemoryRecord).find?
          (fun m => m.memory_id == id))).foldl
        (update_access_info_col failing now) [] = []
    rw [hsnap]
    rfl

/-- An APScheduler trigger as used by `MemoryScheduler.start_scheduler`.
An `IntervalTrigger` with no end date fires at `start + k * interval` for
every `k ≥ 1`, i.e. it recurs indefinitely. -/
inductive Trigger where
  | interval (seconds : Nat)

/-- The time (in seconds after scheduler start) of the k-th firing of a
trigger, counting from `k = 0` for the first firing. -/
def Trigger.fireTime : Trigger → Nat → Nat
  | .interval s, k => s * (k + 1)

/-- A job registered on the scheduler. -/
structure Job where
  id : String
  name : String
  trigger : Trigger

/-- The three jobs registered by `MemoryScheduler.start_scheduler`: the
recurring forgetting-curve job (every `forgetting_interval_hours` hours),
the recurring maintenance job (every `maintenance_interval_hours` hours),
and the job with id `initial_forgetting_job`, registered with
`IntervalTrigger(minutes=1)`. -/
def start_scheduler_jobs
    (forgetting_interval_hours maintenance_interval_hours : Nat) :
    List Job :=
  [ { id := "forgetting_curve_job", name := "Apply Forgetting Curve",
      trigger := .interval (forgetting_interval_hours * 3600) },
    { id := "memory_maintenance_job", name := "Memory Maintenance",
      trigger := .interval (maintenance_interval_hours * 3600) },
    { id := "initial_forgetting_job", name := "Initial Forgetting Curve",
      trigger := .interval 60 } ]

/-- C9 evaluation: the job `initial_forgetting_job` registered by
`start_scheduler` is driven by a one-minute interval trigger, so it fires
at sixty seconds after start and then again every sixty seconds for every
`k` — it is not a one-shot timer. -/
theorem initial_forgetting_job_fires_every_minute :
    ∃ j ∈ start_scheduler_jobs 24 168, j.id = "initial_forgetting_job" ∧
      ∀ k : Nat, j.trigger.fireTime k = 60 * (k + 1) :=
  ⟨{ id := "initial_forgetting_job", name := "Initial Forgetting Curve",
     trigger := .interval 60 },
   by simp [start_scheduler_jobs],
   rfl,
   fun k => rfl⟩
